import Mathlib

/-!
Verification of `hummingbot/connector/exchange/openware/openware_utils.py`.

Python strings are embedded as `List Char` (ASCII case mapping), fallible
Python operations as `Except Unit` or `Option`, and the external
collaborators (the `TRADING_PAIR_SPLITTER` regex and `HBOT_BROKER_ID`
constant from `openware_constants.py`, the tracking nonce, the aiohttp
transport and the `dateutil` parser) as explicit parameters or modelled
definitions.
-/

deriving instance DecidableEq for Except

/-- The ten ASCII digit characters. -/
def digitsList : List Char := ['0','1','2','3','4','5','6','7','8','9']

/-- The ASCII uppercase letters. -/
def ucList : List Char :=
  ['A','B','C','D','E','F','G','H','I','J','K','L','M',
   'N','O','P','Q','R','S','T','U','V','W','X','Y','Z']

/-- The ASCII lowercase letters. -/
def lcList : List Char :=
  ['a','b','c','d','e','f','g','h','i','j','k','l','m',
   'n','o','p','q','r','s','t','u','v','w','x','y','z']

/-- The ASCII letters (model of Python `str.isalpha` restricted to ASCII). -/
def alphaList : List Char := ucList ++ lcList

/-- Model of Python `str.lower` on a single character (ASCII case mapping). -/
def lowerC : Char → Char
  | 'A' => 'a' | 'B' => 'b' | 'C' => 'c' | 'D' => 'd' | 'E' => 'e'
  | 'F' => 'f' | 'G' => 'g' | 'H' => 'h' | 'I' => 'i' | 'J' => 'j'
  | 'K' => 'k' | 'L' => 'l' | 'M' => 'm' | 'N' => 'n' | 'O' => 'o'
  | 'P' => 'p' | 'Q' => 'q' | 'R' => 'r' | 'S' => 's' | 'T' => 't'
  | 'U' => 'u' | 'V' => 'v' | 'W' => 'w' | 'X' => 'x' | 'Y' => 'y'
  | 'Z' => 'z' | c => c

/-- Model of Python `str.upper` on a single character (ASCII case mapping). -/
def upperC : Char → Char
  | 'a' => 'A' | 'b' => 'B' | 'c' => 'C' | 'd' => 'D' | 'e' => 'E'
  | 'f' => 'F' | 'g' => 'G' | 'h' => 'H' | 'i' => 'I' | 'j' => 'J'
  | 'k' => 'K' | 'l' => 'L' | 'm' => 'M' | 'n' => 'N' | 'o' => 'O'
  | 'p' => 'P' | 'q' => 'Q' | 'r' => 'R' | 's' => 'S' | 't' => 'T'
  | 'u' => 'U' | 'v' => 'V' | 'w' => 'W' | 'x' => 'X' | 'y' => 'Y'
  | 'z' => 'Z' | c => c

/-- Model of Python `s.upper()` (ASCII case mapping). -/
def pyUpper (s : List Char) : List Char := s.map upperC

/-- Model of Python `s.split(sep)` for a one-character separator `sep`:
splits on every occurrence, keeping empty fragments, so the result always
has at least one element (`"".split("-") == [""]`). -/
def pySplit (sep : Char) : List Char → List (List Char)
  | [] => [[]]
  | c :: rest =>
    if c = sep then [] :: pySplit sep rest
    else
      match pySplit sep rest with
      | [] => [[c]]
      | g :: gs => (c :: g) :: gs

/-- Model of Python's single-element indexing `s[i]` (negative indices count
from the end; an out-of-range index is an `IndexError`, modelled as
`Except.error`). -/
def pyGetItem {α : Type} (l : List α) (i : Int) : Except Unit α :=
  let j : Int := if i < 0 then i + l.length else i
  if j < 0 then .error ()
  else
    match l.get? j.toNat with
    | some a => .ok a
    | none => .error ()

/-- The character for a single decimal digit. -/
def digitChar : Nat → Char
  | 0 => '0' | 1 => '1' | 2 => '2' | 3 => '3' | 4 => '4'
  | 5 => '5' | 6 => '6' | 7 => '7' | 8 => '8' | _ => '9'

/-- Fuel-driven helper for `renderNat`. -/
def renderNatAux : Nat → Nat → List Char
  | 0, _ => []
  | fuel + 1, n =>
    if n < 10 then [digitChar n]
    else renderNatAux fuel (n / 10) ++ [digitChar (n % 10)]

/-- Model of Python `str(n)` for a non-negative integer: its decimal digits. -/
def renderNat (n : Nat) : List Char := renderNatAux (n + 1) n

/-- The numeric value of a decimal digit character. -/
def digitVal (c : Char) : Nat := c.toNat - 48

/-- Reads back the decimal digits produced by `renderNat`. -/
def parseNat (l : List Char) : Nat := l.foldl (fun a c => 10 * a + digitVal c) 0

/-- Bool-valued list-prefix test (model of Python string prefix matching). -/
def isPrefixB : List Char → List Char → Bool
  | [], _ => true
  | _ :: _, [] => false
  | a :: n, b :: h => a == b && isPrefixB n h

/-- Model of Python's substring test `needle in hay` on strings. -/
def isSubB (needle : List Char) : List Char → Bool
  | [] => needle.isEmpty
  | c :: h => isPrefixB needle (c :: h) || isSubB needle h

/-- Model of the 100-character truncation applied to the raw body text:
`if len(s) > 100: s = f"{s[:100]} ... (truncated)"`. -/
def truncate100 (s : List Char) : List Char :=
  if s.length > 100 then s.take 100 ++ (" ... (truncated)".data) else s

/-- Embedding of `split_trading_pair`. A compiled regex is modelled as a
function from the subject string to the optional list of its captured
groups (`splitter s = some gs` means the pattern matched with groups `gs`,
so `m.group(i) = gs[i-1]`). `TRADING_PAIR_SPLITTER` is configured in
`openware_constants.py`, outside the translated sources, so the pattern is
a parameter here. The `try/except` of the source catches both the
`AttributeError` from `m.group(1)` when the match is `None` and the
`IndexError` when the pattern has fewer than two groups; both collapse to
`none`. -/
def split_trading_pair (splitter : List Char → Option (List (List Char)))
    (trading_pair : List Char) : Option (List Char × List Char) :=
  match splitter trading_pair with
  | none => none
  | some gs =>
    match gs.get? 0, gs.get? 1 with
    | some g1, some g2 => some (g1, g2)
    | _, _ => none

/-- Embedding of `convert_from_exchange_trading_pair`. The source calls
`split_trading_pair` twice (once for the `None` test, once to unpack); the
call is pure, so the second call is collapsed into the single `match`. -/
def convert_from_exchange_trading_pair
    (splitter : List Char → Option (List (List Char)))
    (ex_trading_pair : List Char) : Option (List Char) :=
  match split_trading_pair splitter ex_trading_pair with
  | none => none
  | some (base_asset, quote_asset) =>
    some (pyUpper base_asset ++ ('-' :: pyUpper quote_asset))

/-- Embedding of `convert_to_exchange_trading_pair`:
`hb_trading_pair.replace("-", "").lower()`. -/
def convert_to_exchange_trading_pair (hb_trading_pair : List Char) : List Char :=
  (hb_trading_pair.filter (fun c => !(c == '-'))).map lowerC

/-- Quote-currency suffixes recognised by the modelled splitter pattern. -/
def quoteSuffixes : List (List Char) :=
  ["btc".data, "eth".data, "usdt".data, "usd".data]

/-- Modelled from the spec: `Constants.TRADING_PAIR_SPLITTER` of
`openware_constants.py` is not among the translated sources. The spec says
it is an exchange-configured pattern with two captured groups (base,
quote) accepting the exchange's lowercase concatenated symbols, e.g. the
pattern `(eth)(btc)` matching `ethbtc`. It is modelled as recognising a
known quote-currency suffix preceded by a non-empty base. -/
def TRADING_PAIR_SPLITTER (s : List Char) : Option (List (List Char)) :=
  match quoteSuffixes.find? (fun q => q.isSuffixOf s && decide (q.length < s.length)) with
  | some q => some [s.take (s.length - q.length), q]
  | none => none

/-- Embedding of `get_new_client_order_id`. External collaborators are
passed explicitly: `brokerId` models `Constants.HBOT_BROKER_ID` (from
`openware_constants.py`, outside the translated sources) and `nonce` the
value drawn from `get_tracking_nonce()` during the call. A Python
`IndexError` from `symbols[1]`, `base[-1]` or `quote[-1]` is modelled as
`Except.error` (the slices `base[0:4]` and `quote[0:2]` never raise). -/
def get_new_client_order_id (brokerId : List Char) (nonce : Nat)
    (is_buy : Bool) (trading_pair : List Char) : Except Unit (List Char) := do
  let side := if is_buy then ['B'] else ['S']
  let symbols := pySplit '-' trading_pair
  let sym0 ← pyGetItem symbols 0
  let base := pyUpper sym0
  let sym1 ← pyGetItem symbols 1
  let quote := pyUpper sym1
  let baseLast ← pyGetItem base (-1)
  let base_str := base.take 4 ++ [baseLast]
  let quoteLast ← pyGetItem quote (-1)
  let quote_str := quote.take 2 ++ [quoteLast]
  return brokerId ++ ('-' :: (side ++ (base_str ++ (quote_str ++ renderNat nonce))))

/-- Number of days of the given month (1-12). -/
def daysInMonth (leap : Bool) : Nat → Nat
  | 1 => 31 | 2 => if leap then 29 else 28 | 3 => 31 | 4 => 30 | 5 => 31
  | 6 => 30 | 7 => 31 | 8 => 31 | 9 => 30 | 10 => 31 | 11 => 30 | 12 => 31
  | _ => 0

/-- Gregorian leap-year rule. -/
def isLeapYear (y : Nat) : Bool := (y % 4 == 0 && y % 100 != 0) || y % 400 == 0

/-- Days of the year strictly before month `m`. -/
def daysBeforeMonth (leap : Bool) (m : Nat) : Nat :=
  (List.range (m - 1)).foldl (fun acc i => acc + daysInMonth leap (i + 1)) 0

/-- Days from 1970-01-01 to the given civil date (year at least 1970). -/
def daysSinceEpoch (y m d : Nat) : Nat :=
  (List.range (y - 1970)).foldl
      (fun acc i => acc + (if isLeapYear (1970 + i) then 366 else 365)) 0
    + daysBeforeMonth (isLeapYear y) m + (d - 1)

/-- The decimal digit at position `i` of `s`, if any. -/
def digitAt (s : List Char) (i : Nat) : Option Nat :=
  match s.get? i with
  | some c => if c ∈ digitsList then some (digitVal c) else none
  | none => none

/-- The `len`-digit number starting at position `i` of `s`, if present. -/
def numAt (s : List Char) (i len : Nat) : Option Nat :=
  (List.range len).foldl
    (fun acc j =>
      match acc, digitAt s (i + j) with
      | some a, some d => some (10 * a + d)
      | _, _ => none)
    (some 0)

/-- Modelled from the spec: `dateutil.parser.parse` is a third-party
general-purpose date parser; it is modelled here restricted to ISO-8601
UTC strings `YYYY-MM-DDTHH:MM:SSZ` with a valid calendar date from 1970
on, which covers the exchange-supplied dates of the spec. The result is
the field tuple `(year, month, day, hour, minute, second)`. -/
def parseIsoUtc (s : List Char) :
    Option (Nat × Nat × Nat × Nat × Nat × Nat) :=
  if s.length = 20 ∧ s.get? 4 = some '-' ∧ s.get? 7 = some '-' ∧
     s.get? 10 = some 'T' ∧ s.get? 13 = some ':' ∧ s.get? 16 = some ':' ∧
     s.get? 19 = some 'Z' then
    match numAt s 0 4, numAt s 5 2, numAt s 8 2,
          numAt s 11 2, numAt s 14 2, numAt s 17 2 with
    | some y, some mo, some d, some h, some mi, some sec =>
      if 1970 ≤ y ∧ 1 ≤ mo ∧ mo ≤ 12 ∧ 1 ≤ d ∧
         d ≤ daysInMonth (isLeapYear y) mo ∧ h < 24 ∧ mi < 60 ∧ sec < 60 then
        some (y, mo, d, h, mi, sec)
      else none
    | _, _, _, _, _, _ => none
  else none

/-- Embedding of `str_date_to_ts`: `int(dateparse(date).timestamp())`.
For a UTC date the timestamp is a whole number of seconds, so the `int`
truncation returns exactly the epoch seconds. A string the parser does not
recognise raises, and the source does not catch it: modelled as
`Except.error`. -/
def str_date_to_ts (date : List Char) : Except Unit Nat :=
  match parseIsoUtc date with
  | some (y, mo, d, h, mi, sec) =>
    .ok (daysSinceEpoch y mo d * 86400 + h * 3600 + mi * 60 + sec)
  | none => .error ()

/-- Structured JSON values as produced by `response.json()` (JSON `null`
is Python `None` and is represented separately in `Body`; arrays are not
modelled, no behaviour of this file depends on them). -/
inductive JVal where
  | jdict : List (List Char × JVal) → JVal
  | jstr : List Char → JVal
  | jnum : Int → JVal
  | jbool : Bool → JVal

/-- The value held by the `parsed_response` variable: Python `None`, a
structured JSON value, or a plain string (raw-body fallback or the HTTP
reason phrase). -/
inductive Body where
  | pyNone : Body
  | json : JVal → Body
  | text : List Char → Body

/-- Tests `parsed_response is None`. -/
def Body.isNone : Body → Bool
  | .pyNone => true
  | _ => false

/-- Model of Python `"error" in parsed_response`: key membership on a
dict, substring test on a str. On an int or bool Python raises
`TypeError`; the outer handler of the source then returns the same triple
as the `False` branch does here (status kept, body kept, errors true), so
the total model returns `false` for those. It is never evaluated on
`None` (the `or` short-circuits first). -/
def pyHasError : Body → Bool
  | .pyNone => false
  | .json (.jdict kvs) => kvs.any (fun kv => kv.1 == "error".data)
  | .json (.jstr s) => isSubB ("error".data) s
  | .json (.jnum _) => false
  | .json (.jbool _) => false
  | .text s => isSubB ("error".data) s

/-- The transport collaborator's view of one completed HTTP exchange:
status code, optional reason phrase, and the outcomes of `json()` and
`read()` (each may raise, modelled as `Except.error`; `read()` yields the
`str()` rendering of the raw bytes). -/
structure HttpResponse where
  status : Nat
  reason : Option (List Char)
  jsonResult : Except Unit (Option JVal)
  readResult : Except Unit (List Char)

/-- Conversion of a `response.json()` result into the body variable. -/
def Body.ofJson : Option JVal → Body
  | none => .pyNone
  | some v => .json v

/-- Conversion of `response.reason` into the body variable. -/
def Body.ofReason : Option (List Char) → Body
  | none => .pyNone
  | some s => .text s

/-- Embedding of `aiohttp_response_with_errors`. The in-flight request is
either a response or a fault raised before a status was obtained
(`Except.error`); every later fault (json parse, raw read, the `TypeError`
noted at `pyHasError`) is already reflected in `HttpResponse`, so the
model is total: the routine never propagates an exception. -/
def aiohttp_response_with_errors (request_coroutine : Except Unit HttpResponse) :
    Option Nat × Body × Bool :=
  match request_coroutine with
  | .error _ => (none, .pyNone, true)
  | .ok response =>
    let parse0 : Body × Bool :=
      match response.jsonResult with
      | .ok v => (Body.ofJson v, false)
      | .error _ =>
        match response.readResult with
        | .ok s => (.text (truncate100 s), true)
        | .error _ => (.pyNone, true)
    let tempFailure : Bool :=
      parse0.1.isNone ||
        (decide (response.status ∉ [200, 201]) && !pyHasError parse0.1)
    let parsed :=
      if tempFailure && parse0.1.isNone then Body.ofReason response.reason
      else parse0.1
    let errs := parse0.2 || tempFailure
    (some response.status, parsed, errs)

/-- A response with failure status 500 whose structured body carries an
`error` key. -/
def respErr500 : HttpResponse :=
  { status := 500
    reason := some ("ERR".data)
    jsonResult := .ok (some (.jdict [("error".data, .jstr ("x".data))]))
    readResult := .ok [] }

/-- A response whose `json()` parse raises and whose raw `read()` also
raises. -/
def respRaise : HttpResponse :=
  { status := 500
    reason := some ("ERR".data)
    jsonResult := .error ()
    readResult := .error () }

/-- Well-formedness of a trading pair for the order-id generator: splitting
on `-` yields at least two fragments and the first two are non-empty. -/
def wfComponentsB (t : List Char) : Bool :=
  match pySplit '-' t with
  | b :: q :: _ => !b.isEmpty && !q.isEmpty
  | _ => false

/-- Well-formedness of a trading pair with alphabetic asset codes: the
first two `-`-separated components are non-empty ASCII-alphabetic. -/
def wfAlphaB (t : List Char) : Bool :=
  match pySplit '-' t with
  | b :: q :: _ =>
    !b.isEmpty && !q.isEmpty &&
      b.all (fun c => decide (c ∈ alphaList)) &&
      q.all (fun c => decide (c ∈ alphaList))
  | _ => false

/-- The non-nonce part of a generated client order id. -/
def orderIdStem (brokerId : List Char) (buy : Bool) (b q : List Char) : List Char :=
  brokerId ++ ('-' :: ((if buy then ['B'] else ['S']) ++
    ((pyUpper b).take 4 ++ ((pyUpper b).getLastD 'A' ::
      ((pyUpper q).take 2 ++ [(pyUpper q).getLastD 'A'])))))

theorem lowerC_cases (c : Char) : lowerC c = c ∨ lowerC c ∈ lcList := by
  unfold lowerC
  split
  all_goals first
    | exact Or.inl rfl
    | decide

theorem lowerC_of_mem_lc (c : Char) (h : c ∈ lcList) : lowerC c = c := by
  fin_cases h <;> rfl

theorem lowerC_idem (c : Char) : lowerC (lowerC c) = lowerC c := by
  rcases lowerC_cases c with h | h
  · rw [h, h]
  · rw [lowerC_of_mem_lc _ h]

theorem upperC_lowerC_of_mem_uc (c : Char) (h : c ∈ ucList) :
    upperC (lowerC c) = c := by
  fin_cases h <;> rfl

theorem lowerC_ne_dash (c : Char) (h : c ≠ '-') : lowerC c ≠ '-' := by
  unfold lowerC
  split
  all_goals first
    | decide
    | exact h

theorem upperC_mem_uc_of_alpha (c : Char) (h : c ∈ alphaList) :
    upperC c ∈ ucList := by
  fin_cases h <;> decide

theorem not_digit_of_mem_uc (c : Char) (h : c ∈ ucList) : c ∉ digitsList := by
  fin_cases h <;> decide

theorem pySplit_ne_nil (sep : Char) (s : List Char) : pySplit sep s ≠ [] := by
  induction s with
  | nil => simp [pySplit]
  | cons c rest ih =>
    simp only [pySplit]
    split
    · simp
    · split
      · simp
      · simp

theorem pyGetItem_zero {α : Type} (a : α) (l : List α) :
    pyGetItem (a :: l) 0 = .ok a := rfl

theorem pyGetItem_one {α : Type} (a b : α) (l : List α) :
    pyGetItem (a :: b :: l) 1 = .ok b := rfl

theorem pyGetItem_one_nil {α : Type} (a : α) :
    pyGetItem [a] 1 = .error () := rfl

theorem pyGetItem_neg_one_nil {α : Type} : pyGetItem ([] : List α) (-1) = .error () := rfl

theorem pyGetItem_neg_one {α : Type} [Inhabited α] (a : α) (l : List α) :
    pyGetItem (a :: l) (-1) = .ok ((a :: l).getLastD default) := by
  have h0 : ¬ ((-1 : Int) + ((a :: l).length : Int) < 0) := by
    simp only [List.length_cons]
    push_cast
    omega
  have ht : ((-1 : Int) + ((a :: l).length : Int)).toNat = l.length := by
    simp only [List.length_cons]
    push_cast
    omega
  simp only [pyGetItem, if_pos (show (-1 : Int) < 0 by norm_num), if_neg h0, ht]
  have hg : (a :: l).get? l.length = List.getLast? (a :: l) := by
    rw [List.get?_eq_getElem?, List.getLast?_eq_getElem?]
    simp
  rw [hg, List.getLast?_eq_getLast (a :: l) (by simp)]
  simp [List.getLastD_eq_getLast?, List.getLast?_eq_getLast (a :: l) (by simp)]

theorem renderNatAux_congr :
    ∀ (f1 f2 n : Nat), n < f1 → n < f2 → renderNatAux f1 n = renderNatAux f2 n := by
  intro f1
  induction f1 with
  | zero => intro f2 n h1 _; omega
  | succ f ih =>
    intro f2 n h1 h2
    cases f2 with
    | zero => omega
    | succ f2 =>
      simp only [renderNatAux]
      by_cases h10 : n < 10
      · simp [h10]
      · have hdiv : n / 10 < n := Nat.div_lt_self (by omega) (by omega)
        simp only [if_neg h10]
        rw [ih f2 (n / 10) (by omega) (by omega)]

theorem renderNat_eq (n : Nat) :
    renderNat n = if n < 10 then [digitChar n]
                  else renderNat (n / 10) ++ [digitChar (n % 10)] := by
  unfold renderNat
  by_cases h10 : n < 10
  · simp [renderNatAux, h10]
  · have hdiv : n / 10 < n := Nat.div_lt_self (by omega) (by omega)
    simp only [renderNatAux, if_neg h10]
    rw [renderNatAux_congr n (n / 10 + 1) (n / 10) (by omega) (by omega)]
    simp only [renderNatAux]

theorem digitChar_mem (m : Nat) : digitChar m ∈ digitsList := by
  unfold digitChar
  split <;> decide

theorem renderNat_all_digits (n : Nat) : ∀ c ∈ renderNat n, c ∈ digitsList := by
  induction n using Nat.strong_induction_on with
  | _ n ih =>
    rw [renderNat_eq]
    by_cases h10 : n < 10
    · simp only [if_pos h10, List.mem_singleton]
      rintro c rfl
      exact digitChar_mem n
    · have hdiv : n / 10 < n := Nat.div_lt_self (by omega) (by omega)
      simp only [if_neg h10, List.mem_append, List.mem_singleton]
      rintro c (hc | rfl)
      · exact ih (n / 10) hdiv c hc
      · exact digitChar_mem (n % 10)

theorem digitVal_digitChar : ∀ m, m < 10 → digitVal (digitChar m) = m := by decide

theorem parseNat_renderNat_aux (n : Nat) :
    ∀ acc, List.foldl (fun a c => 10 * a + digitVal c) acc (renderNat n) =
      acc * 10 ^ (renderNat n).length + n := by
  induction n using Nat.strong_induction_on with
  | _ n ih =>
    intro acc
    rw [renderNat_eq]
    by_cases h10 : n < 10
    · simp only [if_pos h10, List.foldl_cons, List.foldl_nil, List.length_singleton]
      rw [digitVal_digitChar n h10]
      ring
    · have hdiv : n / 10 < n := Nat.div_lt_self (by omega) (by omega)
      simp only [if_neg h10, List.foldl_append, List.foldl_cons, List.foldl_nil,
        List.length_append, List.length_singleton]
      rw [ih (n / 10) hdiv acc, digitVal_digitChar (n % 10) (by omega)]
      have hmod : 10 * (n / 10) + n % 10 = n := Nat.div_add_mod n 10
      have hpow : 10 ^ ((renderNat (n / 10)).length + 1) =
          10 ^ (renderNat (n / 10)).length * 10 := pow_succ 10 _
      rw [hpow]
      ring_nf
      omega

theorem parseNat_renderNat (n : Nat) : parseNat (renderNat n) = n := by
  have h := parseNat_renderNat_aux n 0
  simpa [parseNat] using h

theorem renderNat_injective {n1 n2 : Nat} (h : renderNat n1 = renderNat n2) :
    n1 = n2 := by
  have := parseNat_renderNat n1
  rw [h, parseNat_renderNat n2] at this
  omega

/-- C2: when the request completes and the body parses as structured JSON,
the returned errors flag is true iff the body is none or (the status is
not in {200, 201} and the body lacks an `error` field). -/
theorem c2_errors_flag_iff (response : HttpResponse) (o : Option JVal)
    (h : response.jsonResult = .ok o) :
    (aiohttp_response_with_errors (.ok response)).2.2 = true ↔
      (o = none ∨
        (response.status ∉ [200, 201] ∧ pyHasError (Body.ofJson o) = false)) := by
  cases o with
  | none =>
    simp [aiohttp_response_with_errors, h, Body.ofJson, Body.isNone]
  | some v =>
    simp [aiohttp_response_with_errors, h, Body.ofJson, Body.isNone,
      Bool.not_eq_true']

/-- Witness for C2, also the "in particular" clause of the claim: a
status-500 response whose structured body contains an `error` key comes
back with the errors flag false. -/
theorem c2_errors_flag_iff_witness :
    (aiohttp_response_with_errors (.ok respErr500)).2.2 = false := by
  have h := c2_errors_flag_iff respErr500
    (some (.jdict [("error".data, .jstr ("x".data))])) rfl
  rw [Bool.eq_false_iff]
  intro htrue
  rcases h.mp htrue with hnone | ⟨_, herr⟩
  · exact Option.noConfusion hnone
  · rw [show pyHasError (Body.ofJson (some (.jdict [("error".data, .jstr ("x".data))]))) = true
      from rfl] at herr
    exact absurd herr (by decide)

/-- C3: the routine is a total function of the request outcome (so no
exception propagates to the caller): a fault raised before a status code
was obtained yields the triple (none, none, errors=true), while any
completed response — whatever faults its body reads raise — still yields
a triple carrying that status code. -/
theorem c3_fault_before_status (request_coroutine : Except Unit HttpResponse) :
    (∀ u, request_coroutine = .error u →
      aiohttp_response_with_errors request_coroutine = (none, Body.pyNone, true)) ∧
    (∀ response, request_coroutine = .ok response →
      (aiohttp_response_with_errors request_coroutine).1 = some response.status) := by
  constructor
  · rintro u rfl
    rfl
  · rintro response rfl
    rfl

/-- Witness for C3 at the concrete pre-status fault. -/
theorem c3_fault_before_status_witness :
    aiohttp_response_with_errors (.error ()) = (none, Body.pyNone, true) :=
  (c3_fault_before_status (.error ())).1 () rfl

/-- C4 counterexample: for a response whose JSON parse raises and whose
raw read also raises, the returned body is the HTTP reason phrase, not
none: at status 500 with reason "ERR" the triple is
(500, "ERR", true), and "ERR" is not none. -/
theorem c4_counterexample :
    aiohttp_response_with_errors (.ok respRaise) =
        (some 500, Body.text ("ERR".data), true) ∧
      Body.text ("ERR".data) ≠ Body.pyNone :=
  ⟨rfl, fun h => Body.noConfusion h⟩

/-- C4 amended: for a response whose JSON parse raises and whose raw body
read also raises, the routine returns the status code, the HTTP reason
phrase as the body (none only when the transport supplies no reason
phrase), and the errors flag set. -/
theorem c4_amended (response : HttpResponse)
    (hj : response.jsonResult = .error ())
    (hr : response.readResult = .error ()) :
    aiohttp_response_with_errors (.ok response) =
      (some response.status, Body.ofReason response.reason, true) := by
  simp [aiohttp_response_with_errors, hj, hr, Body.isNone]

/-- Witness for the amended C4 at the concrete double-fault response. -/
theorem c4_amended_witness :
    aiohttp_response_with_errors (.ok respRaise) =
      (some respRaise.status, Body.ofReason respRaise.reason, true) :=
  c4_amended respRaise rfl rfl

/-- C8: the date utility parses the date string and truncates to integer
seconds since the Unix epoch; on the spec's example,
`str_date_to_ts("2021-01-01T00:00:00Z") == 1609459200`. -/
theorem c8_str_date_to_ts : str_date_to_ts ("2021-01-01T00:00:00Z".data) = .ok 1609459200 := by
  decide

/-- C9: `convert_to_exchange_trading_pair` removes every `-` character and
lowercases the rest, hence is idempotent. -/
theorem c9_convert_to_idem (p : List Char) :
    '-' ∉ convert_to_exchange_trading_pair p ∧
      convert_to_exchange_trading_pair (convert_to_exchange_trading_pair p) =
        convert_to_exchange_trading_pair p := by
  have hnodash : '-' ∉ convert_to_exchange_trading_pair p := by
    intro hmem
    unfold convert_to_exchange_trading_pair at hmem
    rw [List.mem_map] at hmem
    obtain ⟨c, hc, hlc⟩ := hmem
    rw [List.mem_filter] at hc
    have hne : c ≠ '-' := by simpa using hc.2
    exact (lowerC_ne_dash c hne) hlc
  refine ⟨hnodash, ?_⟩
  conv_lhs => rw [convert_to_exchange_trading_pair]
  have hfil : (convert_to_exchange_trading_pair p).filter (fun c => !(c == '-')) =
      convert_to_exchange_trading_pair p := by
    rw [List.filter_eq_self]
    intro a ha
    simp only [Bool.not_eq_eq_eq_not, Bool.not_true, beq_eq_false_iff_ne]
    intro hne
    exact hnodash (hne ▸ ha)
  rw [hfil]
  have hid : ∀ a ∈ convert_to_exchange_trading_pair p, lowerC a = id a := by
    intro a ha
    unfold convert_to_exchange_trading_pair at ha
    rw [List.mem_map] at ha
    obtain ⟨c, _, rfl⟩ := ha
    exact lowerC_idem c
  rw [List.map_congr_left hid, List.map_id]

/-- C7: `split_trading_pair` never raises: a pattern match yields the pair
of the first two captured groups, while a non-match or a missing group
(the `IndexError` fault) yields none. -/
theorem c7_split_total (splitter : List Char → Option (List (List Char)))
    (s : List Char) :
    (splitter s = none → split_trading_pair splitter s = none) ∧
    (∀ gs, splitter s = some gs →
      (∀ g1 g2 rest, gs = g1 :: g2 :: rest →
          split_trading_pair splitter s = some (g1, g2)) ∧
        (gs.length < 2 → split_trading_pair splitter s = none)) := by
  refine ⟨fun h => by simp [split_trading_pair, h], fun gs hgs => ⟨?_, ?_⟩⟩
  · rintro g1 g2 rest rfl
    simp [split_trading_pair, hgs]
  · intro hlen
    match gs, hlen with
    | [], _ => simp [split_trading_pair, hgs]
    | [g], _ => simp [split_trading_pair, hgs]

/-- Witness for C7 on the modelled splitter and the spec's example symbol. -/
theorem c7_split_total_witness :
    split_trading_pair TRADING_PAIR_SPLITTER ("ethbtc".data) =
      some ("eth".data, "btc".data) :=
  ((c7_split_total TRADING_PAIR_SPLITTER ("ethbtc".data)).2
      ["eth".data, "btc".data] (by decide)).1 _ _ [] rfl

/-- C1 counterexample: the round trip is not the identity on every
canonical pair. With the modelled splitter, B = "ET", Q = "HBTC" are
non-empty uppercase alphabetic, yet the round trip returns "ETH-BTC",
which differs from "ET-HBTC". -/
theorem c1_counterexample :
    ("ET".data ≠ [] ∧ (∀ c ∈ "ET".data, c ∈ ucList) ∧
      "HBTC".data ≠ [] ∧ (∀ c ∈ "HBTC".data, c ∈ ucList)) ∧
    convert_from_exchange_trading_pair TRADING_PAIR_SPLITTER
        (convert_to_exchange_trading_pair ("ET".data ++ ('-' :: "HBTC".data))) =
      some ("ETH-BTC".data) ∧
    "ETH-BTC".data ≠ "ET".data ++ ('-' :: "HBTC".data) := by
  decide

/-- No splitter function can make the round trip the identity on all
canonical pairs: distinct pairs share one exchange symbol. -/
theorem roundtrip_ambiguous (splitter : List Char → Option (List (List Char))) :
    ¬ (∀ B Q : List Char, B ≠ [] → Q ≠ [] →
        (∀ c ∈ B, c ∈ ucList) → (∀ c ∈ Q, c ∈ ucList) →
        convert_from_exchange_trading_pair splitter
            (convert_to_exchange_trading_pair (B ++ ('-' :: Q))) =
          some (B ++ ('-' :: Q))) := by
  intro h
  have h1 := h ("ET".data) ("HBTC".data) (by decide) (by decide) (by decide) (by decide)
  have h2 := h ("ETH".data) ("BTC".data) (by decide) (by decide) (by decide) (by decide)
  have heq : convert_to_exchange_trading_pair ("ET".data ++ ('-' :: "HBTC".data)) =
      convert_to_exchange_trading_pair ("ETH".data ++ ('-' :: "BTC".data)) := by decide
  rw [heq, h2] at h1
  have := Option.some.inj h1
  exact absurd this (by decide)

/-- C1 amended: the round trip returns the original pair exactly on those
pairs whose concatenation the configured splitter splits back into the
lowercased base and quote; by `roundtrip_ambiguous` no pattern achieves
this for all pairs at once. -/
theorem c1_roundtrip (splitter : List Char → Option (List (List Char)))
    (B Q : List Char)
    (hB : ∀ c ∈ B, c ∈ ucList) (hQ : ∀ c ∈ Q, c ∈ ucList)
    (hsplit : splitter (convert_to_exchange_trading_pair (B ++ ('-' :: Q))) =
      some [B.map lowerC, Q.map lowerC]) :
    convert_from_exchange_trading_pair splitter
        (convert_to_exchange_trading_pair (B ++ ('-' :: Q))) =
      some (B ++ ('-' :: Q)) := by
  simp only [convert_from_exchange_trading_pair, split_trading_pair, hsplit,
    List.get?]
  have hB2 : pyUpper (B.map lowerC) = B := by
    unfold pyUpper
    rw [List.map_map]
    have hcomp : ∀ c ∈ B, (upperC ∘ lowerC) c = id c :=
      fun c hc => upperC_lowerC_of_mem_uc c (hB c hc)
    rw [List.map_congr_left hcomp, List.map_id]
  have hQ2 : pyUpper (Q.map lowerC) = Q := by
    unfold pyUpper
    rw [List.map_map]
    have hcomp : ∀ c ∈ Q, (upperC ∘ lowerC) c = id c :=
      fun c hc => upperC_lowerC_of_mem_uc c (hQ c hc)
    rw [List.map_congr_left hcomp, List.map_id]
  rw [hB2, hQ2]

/-- Witness for the amended C1 on the modelled splitter: "ETH-BTC" round
trips. -/
theorem c1_roundtrip_witness :
    convert_from_exchange_trading_pair TRADING_PAIR_SPLITTER
        (convert_to_exchange_trading_pair ("ETH".data ++ ('-' :: "BTC".data))) =
      some ("ETH".data ++ ('-' :: "BTC".data)) :=
  c1_roundtrip TRADING_PAIR_SPLITTER ("ETH".data) ("BTC".data)
    (by decide) (by decide) (by decide)

/-- C5 counterexample: with broker prefix "HBOT" and nonce 7, the quote
fragment of `get_new_client_order_id(True, "ETH-BTC")` is "BTC"
(first two plus last character of "BTC"), not "ETC" as the claim states:
the produced id is "HBOT-BETHHBTC7", not "HBOT-BETHHETC7". -/
theorem c5_counterexample :
    get_new_client_order_id ("HBOT".data) 7 true ("ETH-BTC".data) =
        .ok ("HBOT-BETHHBTC7".data) ∧
      "HBOT-BETHHBTC7".data ≠ "HBOT-BETHHETC7".data := by
  decide

/-- C5 amended: `get_new_client_order_id(True, "ETH-BTC")` returns
{broker prefix}-B, the base fragment "ETHH", the quote fragment "BTC",
then the nonce in decimal. -/
theorem c5_order_id_shape (brokerId : List Char) (nonce : Nat) :
    get_new_client_order_id brokerId nonce true ("ETH-BTC".data) =
      .ok (brokerId ++ ('-' :: 'B' :: 'E' :: 'T' :: 'H' :: 'H' ::
        'B' :: 'T' :: 'C' :: renderNat nonce)) := rfl

theorem pyGetItem_neg_one_char (a : Char) (l : List Char) :
    pyGetItem (a :: l) (-1) = .ok ((a :: l).getLastD 'A') := pyGetItem_neg_one a l

theorem getLastD_mem (l : List Char) (d : Char) (h : l ≠ []) :
    l.getLastD d ∈ l := by
  rw [List.getLastD_eq_getLast?, List.getLast?_eq_getLast l h]
  simp [List.getLast_mem h]

/-- Evaluation of `get_new_client_order_id` on a well-formed trading pair:
the id is broker prefix, dash, side char, the base fragment (first four
plus last character of the uppercased base), the quote fragment (first two
plus last character of the uppercased quote) and the decimal nonce. -/
theorem get_new_client_order_id_eq (brokerId : List Char) (nonce : Nat)
    (is_buy : Bool) (t b q : List Char) (rest : List (List Char))
    (h : pySplit '-' t = b :: q :: rest) (hb : b ≠ []) (hq : q ≠ []) :
    get_new_client_order_id brokerId nonce is_buy t =
      .ok (brokerId ++ ('-' :: ((if is_buy then ['B'] else ['S']) ++
        ((pyUpper b).take 4 ++ ((pyUpper b).getLastD 'A' ::
          ((pyUpper q).take 2 ++ ((pyUpper q).getLastD 'A' ::
            renderNat nonce))))))) := by
  obtain ⟨bc, bt, rfl⟩ : ∃ bc bt, b = bc :: bt := by
    cases b with
    | nil => exact absurd rfl hb
    | cons x xs => exact ⟨x, xs, rfl⟩
  obtain ⟨qc, qt, rfl⟩ : ∃ qc qt, q = qc :: qt := by
    cases q with
    | nil => exact absurd rfl hq
    | cons x xs => exact ⟨x, xs, rfl⟩
  simp only [get_new_client_order_id, h, pyGetItem_zero, pyGetItem_one,
    bind, Except.bind, pyUpper, List.map_cons, pyGetItem_neg_one_char]
  simp [List.append_assoc, pure, Except.pure]

/-- C10: `get_new_client_order_id` succeeds exactly on trading pairs whose
first two `-`-separated components are non-empty; an input lacking a `-`
separator, or with an empty base or quote component, raises an
`IndexError` (modelled as `Except.error`). -/
theorem c10_totality (brokerId : List Char) (nonce : Nat) (is_buy : Bool)
    (t : List Char) :
    (wfComponentsB t = true →
      ∃ s, get_new_client_order_id brokerId nonce is_buy t = .ok s) ∧
    (wfComponentsB t = false →
      get_new_client_order_id brokerId nonce is_buy t = .error ()) := by
  rcases hsp : pySplit '-' t with _ | ⟨b, _ | ⟨q, rest⟩⟩
  · exact absurd hsp (pySplit_ne_nil '-' t)
  · constructor
    · intro hwf
      simp [wfComponentsB, hsp] at hwf
    · intro _
      simp only [get_new_client_order_id, hsp, pyGetItem_zero,
        bind, Except.bind, pyGetItem_one_nil]
  · by_cases hb : b = []
    · subst hb
      constructor
      · intro hwf
        simp [wfComponentsB, hsp] at hwf
      · intro _
        simp only [get_new_client_order_id, hsp, pyGetItem_zero, pyGetItem_one,
          bind, Except.bind, pyUpper, List.map_nil, pyGetItem_neg_one_nil]
    · by_cases hq : q = []
      · subst hq
        obtain ⟨bc, bt, rfl⟩ : ∃ bc bt, b = bc :: bt := by
          cases b with
          | nil => exact absurd rfl hb
          | cons x xs => exact ⟨x, xs, rfl⟩
        constructor
        · intro hwf
          simp [wfComponentsB, hsp] at hwf
        · intro _
          simp only [get_new_client_order_id, hsp, pyGetItem_zero, pyGetItem_one,
            bind, Except.bind, pyUpper, List.map_cons, List.map_nil,
            pyGetItem_neg_one_char, pyGetItem_neg_one_nil]
      · constructor
        · intro _
          exact ⟨_, get_new_client_order_id_eq brokerId nonce is_buy t b q rest hsp hb hq⟩
        · intro hwf
          simp [wfComponentsB, hsp, hb, hq] at hwf

/-- Witness for C10: a well-formed pair yields an id, a separator-free
input yields the error. -/
theorem c10_totality_witness :
    (∃ s, get_new_client_order_id ("HBOT".data) 1 true ("ETH-BTC".data) = .ok s) ∧
      get_new_client_order_id ("HBOT".data) 1 true ("ETHBTC".data) = .error () :=
  ⟨(c10_totality ("HBOT".data) 1 true ("ETH-BTC".data)).1 (by decide),
   (c10_totality ("HBOT".data) 1 true ("ETHBTC".data)).2 (by decide)⟩

theorem rev_digits_cancel :
    ∀ (d1 d2 r1 r2 : List Char),
      (∀ c ∈ d1, c ∈ digitsList) → (∀ c ∈ d2, c ∈ digitsList) →
      (∀ c, r1.head? = some c → c ∉ digitsList) →
      (∀ c, r2.head? = some c → c ∉ digitsList) →
      d1 ++ r1 = d2 ++ r2 → d1 = d2 := by
  intro d1
  induction d1 with
  | nil =>
    intro d2 r1 r2 _ hd2 hr1 _ h
    cases d2 with
    | nil => rfl
    | cons c d2t =>
      exfalso
      rw [List.nil_append, List.cons_append] at h
      exact hr1 c (by rw [h]; rfl) (hd2 c (by simp))
  | cons a d1t ih =>
    intro d2 r1 r2 hd1 hd2 hr1 hr2 h
    cases d2 with
    | nil =>
      exfalso
      rw [List.nil_append, List.cons_append] at h
      exact hr2 a (by rw [← h]; rfl) (hd1 a (by simp))
    | cons b d2t =>
      simp only [List.cons_append, List.cons.injEq] at h
      obtain ⟨rfl, ht⟩ := h
      rw [ih d2t r1 r2 (fun c hc => hd1 c (by simp [hc]))
        (fun c hc => hd2 c (by simp [hc])) hr1 hr2 ht]

/-- Two lists whose last characters are not digits, each extended with a
digit string, agree on the digit strings as soon as the extended lists
agree. -/
theorem digits_suffix_cancel (p1 p2 d1 d2 : List Char)
    (hd1 : ∀ c ∈ d1, c ∈ digitsList) (hd2 : ∀ c ∈ d2, c ∈ digitsList)
    (hp1 : ∀ c, p1.getLast? = some c → c ∉ digitsList)
    (hp2 : ∀ c, p2.getLast? = some c → c ∉ digitsList)
    (h : p1 ++ d1 = p2 ++ d2) : d1 = d2 := by
  have hrev : d1.reverse ++ p1.reverse = d2.reverse ++ p2.reverse := by
    rw [← List.reverse_append, ← List.reverse_append, h]
  have hres := rev_digits_cancel d1.reverse d2.reverse p1.reverse p2.reverse
    (fun c hc => hd1 c (List.mem_reverse.mp hc))
    (fun c hc => hd2 c (List.mem_reverse.mp hc))
    (fun c hc => hp1 c (by rwa [List.head?_reverse] at hc))
    (fun c hc => hp2 c (by rwa [List.head?_reverse] at hc))
    hrev
  exact List.reverse_injective hres

theorem orderIdStem_append (brokerId : List Char) (buy : Bool)
    (b q : List Char) (n : Nat) :
    brokerId ++ ('-' :: ((if buy then ['B'] else ['S']) ++
      ((pyUpper b).take 4 ++ ((pyUpper b).getLastD 'A' ::
        ((pyUpper q).take 2 ++ ((pyUpper q).getLastD 'A' ::
          renderNat n)))))) =
    orderIdStem brokerId buy b q ++ renderNat n := by
  simp [orderIdStem, List.append_assoc]

theorem orderIdStem_getLast (brokerId : List Char) (buy : Bool)
    (b q : List Char) :
    (orderIdStem brokerId buy b q).getLast? = some ((pyUpper q).getLastD 'A') := by
  have hsplit : orderIdStem brokerId buy b q =
      (brokerId ++ ('-' :: ((if buy then ['B'] else ['S']) ++
        ((pyUpper b).take 4 ++ ((pyUpper b).getLastD 'A' ::
          (pyUpper q).take 2))))) ++ [(pyUpper q).getLastD 'A'] := by
    simp [orderIdStem, List.append_assoc]
  rw [hsplit, List.getLast?_concat]

theorem orderIdStem_last_not_digit (brokerId : List Char) (buy : Bool)
    (b q : List Char) (hq : q ≠ []) (hqa : ∀ c ∈ q, c ∈ alphaList) :
    ∀ c, (orderIdStem brokerId buy b q).getLast? = some c → c ∉ digitsList := by
  intro c hc
  rw [orderIdStem_getLast] at hc
  obtain rfl : c = (pyUpper q).getLastD 'A' := (Option.some.inj hc).symm
  have hmem : (pyUpper q).getLastD 'A' ∈ pyUpper q :=
    getLastD_mem _ _ (by simp [pyUpper, hq])
  rw [pyUpper, List.mem_map] at hmem
  obtain ⟨c0, hc0, heq⟩ := hmem
  rw [show pyUpper q = List.map upperC q from rfl, ← heq]
  exact not_digit_of_mem_uc _ (upperC_mem_uc_of_alpha c0 (hqa c0 hc0))

theorem wfAlphaB_spec (t : List Char) (h : wfAlphaB t = true) :
    ∃ b q rest, pySplit '-' t = b :: q :: rest ∧ b ≠ [] ∧ q ≠ [] ∧
      (∀ c ∈ b, c ∈ alphaList) ∧ (∀ c ∈ q, c ∈ alphaList) := by
  rcases hsp : pySplit '-' t with _ | ⟨b, _ | ⟨q, rest⟩⟩
  · exact absurd hsp (pySplit_ne_nil '-' t)
  · rw [wfAlphaB, hsp] at h
    simp at h
  · rw [wfAlphaB, hsp] at h
    simp only [Bool.and_eq_true, Bool.not_eq_true', List.all_eq_true,
      decide_eq_true_eq] at h
    refine ⟨b, q, rest, rfl, ?_, ?_, h.1.2, h.2⟩
    · intro hnil
      rw [hnil] at h
      simp at h
    · intro hnil
      rw [hnil] at h
      simp at h

/-- C6: two invocations of `get_new_client_order_id` on trading pairs with
non-empty alphabetic asset codes return distinct ids whenever the nonce
values drawn by the two invocations are distinct. -/
theorem c6_ids_distinct (brokerId : List Char) (n1 n2 : Nat)
    (buy1 buy2 : Bool) (t1 t2 s1 s2 : List Char)
    (ha1 : wfAlphaB t1 = true) (ha2 : wfAlphaB t2 = true) (hn : n1 ≠ n2)
    (h1 : get_new_client_order_id brokerId n1 buy1 t1 = .ok s1)
    (h2 : get_new_client_order_id brokerId n2 buy2 t2 = .ok s2) :
    s1 ≠ s2 := by
  obtain ⟨b1, q1, r1, hsp1, hb1, hq1, _, hqa1⟩ := wfAlphaB_spec t1 ha1
  obtain ⟨b2, q2, r2, hsp2, hb2, hq2, _, hqa2⟩ := wfAlphaB_spec t2 ha2
  rw [get_new_client_order_id_eq brokerId n1 buy1 t1 b1 q1 r1 hsp1 hb1 hq1,
    orderIdStem_append] at h1
  rw [get_new_client_order_id_eq brokerId n2 buy2 t2 b2 q2 r2 hsp2 hb2 hq2,
    orderIdStem_append] at h2
  have hs1 : s1 = orderIdStem brokerId buy1 b1 q1 ++ renderNat n1 :=
    (Except.ok.inj h1).symm
  have hs2 : s2 = orderIdStem brokerId buy2 b2 q2 ++ renderNat n2 :=
    (Except.ok.inj h2).symm
  intro hss
  rw [hs1, hs2] at hss
  have hdig := digits_suffix_cancel _ _ _ _
    (renderNat_all_digits n1) (renderNat_all_digits n2)
    (orderIdStem_last_not_digit brokerId buy1 b1 q1 hq1 hqa1)
    (orderIdStem_last_not_digit brokerId buy2 b2 q2 hq2 hqa2)
    hss
  exact hn (renderNat_injective hdig)

/-- Witness for C6: nonces 1 and 2 on "ETH-BTC" give different ids. -/
theorem c6_ids_distinct_witness :
    ("HBOT-BETHHBTC".data ++ renderNat 1) ≠ ("HBOT-SETHHBTC".data ++ renderNat 2) :=
  c6_ids_distinct ("HBOT".data) 1 2 true false ("ETH-BTC".data) ("ETH-BTC".data)
    ("HBOT-BETHHBTC".data ++ renderNat 1) ("HBOT-SETHHBTC".data ++ renderNat 2)
    (by decide) (by decide) (by decide) rfl rfl
